import Mathlib

/-!
Verification of the iterator facility in `src/util/iterator.hpp` (namespace
`top1`): the iterator adaptor's operator surface, the fractional-step
primitive `FloatStepIterImpl`, and the generating primitive
`GeneratingIterImpl`.

Floating-point values (`float`) are modelled by exact rationals `ℚ`; the
wrapped random-access position is modelled by an integer index `ℤ`.
`std::modf` splits a number into a fractional part with the sign of the
input and an integral part truncated toward zero; conversion of a `float`
to an integral type likewise truncates toward zero. Both are modelled by
`trunc` below. Mutation of `*this` is modelled by explicit state passing:
a member function that mutates the receiver and returns a value is a Lean
function returning the pair (returned value, receiver state afterwards).
-/

namespace Top1

/-- Truncation toward zero on `ℚ`, as C++ `std::trunc` / `float`-to-integer
conversion. -/
def trunc (x : ℚ) : ℤ := if 0 ≤ x then ⌊x⌋ else ⌈x⌉

/-- Model of `std::modf x`: the pair (fractional part with the sign of `x`,
integral part truncated toward zero). -/
def modf (x : ℚ) : ℚ × ℤ := (x - trunc x, trunc x)

/-- State of `top1::FloatStepIterImpl` over an integer wrapped position:
the wrapped iterator `iter`, the step size `step`, and the accumulated
error `_error` (source member names kept). -/
structure FloatStepIterImpl where
  iter : ℤ
  step : ℚ
  _error : ℚ
deriving DecidableEq

/-- The constructor `FloatStepIterImpl(iter, step)` (and the free function
`top1::float_step`): stores `iter` and `step`, leaves `_error` at its
member initializer `0`. -/
def float_step (iter : ℤ) (step : ℚ) : FloatStepIterImpl :=
  ⟨iter, step, 0⟩

/-- `FloatStepIterImpl::advance(n)`:
`_error = std::modf(_error + step * n, &intPart); if (_error < 0) { intPart -= 1; _error += 1; } std::advance(iter, intPart);` -/
def FloatStepIterImpl.advance (it : FloatStepIterImpl) (n : ℤ) : FloatStepIterImpl :=
  let m := modf (it._error + it.step * n)
  if m.1 < 0 then ⟨it.iter + (m.2 - 1), it.step, m.1 + 1⟩
  else ⟨it.iter + m.2, it.step, m.1⟩

/-- `FloatStepIterImpl::equal(r)`: `iter == r.iter && _error == r._error`
(the `step` member is not consulted). -/
def FloatStepIterImpl.equal (a r : FloatStepIterImpl) : Bool :=
  a.iter == r.iter && a._error == r._error

/-- `FloatStepIterImpl::difference(o)`:
`(float(iter - o.iter) + (_error - o._error)) / step`, the resulting
floating-point value implicitly converted to `std::ptrdiff_t`, which
truncates toward zero. -/
def FloatStepIterImpl.difference (a o : FloatStepIterImpl) : ℤ :=
  trunc ((((a.iter - o.iter : ℤ) : ℚ) + (a._error - o._error)) / a.step)

/-- `FloatStepIterImpl::dereference()`: propagates to `*iter`; with the
wrapped position modelled as an integer index this is the index itself. -/
def FloatStepIterImpl.dereference (a : FloatStepIterImpl) : ℤ := a.iter

/-- The copy constructor `FloatStepIterImpl(const FloatStepIterImpl&)`:
copies `iter`, `step` and `_error` memberwise. -/
def FloatStepIterImpl.copy (r : FloatStepIterImpl) : FloatStepIterImpl :=
  ⟨r.iter, r.step, r._error⟩

/-- `FloatStepIterImpl::data()`: a copy of the wrapped position. -/
def FloatStepIterImpl.data (a : FloatStepIterImpl) : ℤ := a.iter

/-- `FloatStepIterImpl::error()`: the current `_error`. -/
def FloatStepIterImpl.error (a : FloatStepIterImpl) : ℚ := a._error

/-- The primitive `advance` of `FloatStepIterImpl` in the argument order the
generic adaptor operators expect. -/
def fsAdv : ℤ → FloatStepIterImpl → FloatStepIterImpl :=
  fun n it => it.advance n

/-!
The iterator adaptor `top1::iterator_adaptor_impl` is generic in the
primitive `Impl`; each operator only calls the primitive's `advance`.
It is modelled generically: a state type `σ` and an advance function
`adv : ℤ → σ → σ`. Each operator returns the pair
(value returned by the operator, state of `*this` afterwards).
-/

/-- `iterator_adaptor_impl::operator++()` (pre-increment form):
`auto old = *this; Impl::advance(1); return old;`. -/
def op_preInc {σ : Type} (adv : ℤ → σ → σ) (s : σ) : σ × σ :=
  let old := s
  (old, adv 1 s)

/-- `iterator_adaptor_impl::operator++(int)` (post-increment form):
`Impl::advance(1); return *this;`. -/
def op_postInc {σ : Type} (adv : ℤ → σ → σ) (s : σ) : σ × σ :=
  let s2 := adv 1 s
  (s2, s2)

/-- `iterator_adaptor_impl::operator--()` (pre-decrement form):
`auto old = *this; Impl::advance(-1); return old;`. -/
def op_preDec {σ : Type} (adv : ℤ → σ → σ) (s : σ) : σ × σ :=
  let old := s
  (old, adv (-1) s)

/-- `iterator_adaptor_impl::operator--(int)` (post-decrement form):
`Impl::advance(-1); return *this;`. -/
def op_postDec {σ : Type} (adv : ℤ → σ → σ) (s : σ) : σ × σ :=
  let s2 := adv (-1) s
  (s2, s2)

/-- `iterator_adaptor_impl::operator+(d)` (const member):
`iterator_adaptor_impl res {*this}; res.Impl::advance(d); return res;`.
The pair is (the returned fresh adaptor, the state of `*this` afterwards). -/
def op_add {σ : Type} (adv : ℤ → σ → σ) (a : σ) (d : ℤ) : σ × σ :=
  let res := a
  let res2 := adv d res
  (res2, a)

/-- `iterator_adaptor_impl::operator-(d)` (const member):
`iterator_adaptor_impl res {*this}; res.Impl::advance(-d); return res;`. -/
def op_sub {σ : Type} (adv : ℤ → σ → σ) (a : σ) (d : ℤ) : σ × σ :=
  let res := a
  let res2 := adv (-d) res
  (res2, a)

/-!
The generating primitive `top1::GeneratingIterImpl` owns a callable
`generator` and the last produced value `val`. Invoking a stateful
zero-argument callable is modelled by `produce : γ → V × γ` on the
callable's state: it yields the produced value and the callable's state
after the invocation.
-/

/-- State of `top1::GeneratingIterImpl`: the last produced value `val` and
the stored callable's state `generator` (source member names kept). -/
structure GeneratingIterImpl (γ V : Type) where
  val : V
  generator : γ

/-- One iteration of the loop body of `GeneratingIterImpl::advance`:
`val = std::invoke(generator);` (the invocation may mutate `generator`). -/
def invokeStep {γ V : Type} (produce : γ → V × γ)
    (it : GeneratingIterImpl γ V) : GeneratingIterImpl γ V :=
  ⟨(produce it.generator).1, (produce it.generator).2⟩

/-- `GeneratingIterImpl::advance(n)`: `for (int i = 0; i < n; i++) { val = std::invoke(generator); }`,
which runs the body `max n 0` times. -/
def GeneratingIterImpl.advance {γ V : Type} (produce : γ → V × γ) (n : ℤ)
    (it : GeneratingIterImpl γ V) : GeneratingIterImpl γ V :=
  (invokeStep produce)^[n.toNat] it

/-- `GeneratingIterImpl::dereference()`: `return val;` — a pure read, not
touching `generator`. -/
def GeneratingIterImpl.dereference {γ V : Type}
    (it : GeneratingIterImpl γ V) : V := it.val

/-- The evolution of the callable's own state under one invocation. -/
def stateTrans {γ V : Type} (produce : γ → V × γ) : γ → γ :=
  fun g => (produce g).2

/-- A producer with an invocation counter: the `k`-th invocation (counting
from 0) returns `f k` and increments the counter. Used to witness exact
invocation counts. -/
def countingProduce (f : ℕ → ℕ) : ℕ → ℕ × ℕ :=
  fun k => (f k, k + 1)

/-!
Basic facts about `trunc` and the `modf`-based error split: the
correction step in `advance` turns the truncation split into the
floor/fractional-part split.
-/

lemma trunc_intCast (d : ℤ) : trunc (d : ℚ) = d := by
  unfold trunc
  split
  · exact Int.floor_intCast d
  · exact Int.ceil_intCast d

lemma ceil_eq_floor_add_one_of_fract_ne {x : ℚ} (h : Int.fract x ≠ 0) :
    ⌈x⌉ = ⌊x⌋ + 1 := by
  have h1 : (⌊x⌋ : ℚ) < x := by
    rcases lt_or_eq_of_le (Int.floor_le x) with h2 | h2
    · exact h2
    · exact absurd (by rw [← Int.self_sub_floor]; exact sub_eq_zero.mpr h2.symm) h
  have h2 : ⌊x⌋ < ⌈x⌉ := by
    have h3 := Int.le_ceil x
    exact_mod_cast lt_of_lt_of_le h1 h3
  have h3 : ⌈x⌉ ≤ ⌊x⌋ + 1 := by
    apply Int.ceil_le.mpr
    push_cast
    exact (Int.lt_floor_add_one x).le
  omega

/-- The split-and-correct computation in `FloatStepIterImpl::advance`
realizes exactly the floor/fractional-part decomposition of
`_error + step * n`. -/
lemma advance_def (it : FloatStepIterImpl) (n : ℤ) :
    it.advance n =
      ⟨it.iter + ⌊it._error + it.step * n⌋, it.step,
        Int.fract (it._error + it.step * n)⟩ := by
  unfold FloatStepIterImpl.advance modf trunc
  set x := it._error + it.step * n with hx
  by_cases h0 : 0 ≤ x
  · rw [if_pos h0]
    have hnn : ¬ (x - (⌊x⌋ : ℚ) < 0) := by
      rw [Int.self_sub_floor]
      exact not_lt.mpr (Int.fract_nonneg x)
    simp only [hnn, if_false]
    rw [Int.self_sub_floor]
  · rw [if_neg h0]
    push_neg at h0
    by_cases hf : Int.fract x = 0
    · have hfl : (⌊x⌋ : ℚ) = x := by
        have h4 := Int.floor_add_fract x
        rw [hf, add_zero] at h4
        exact h4
      have hc : ⌈x⌉ = ⌊x⌋ := by
        conv_lhs => rw [← hfl]
        exact Int.ceil_intCast _
      have hz : x - (⌊x⌋ : ℚ) = 0 := by rw [hfl, sub_self]
      simp only [hc, hz, lt_self_iff_false, if_false, hf]
    · have hc : ⌈x⌉ = ⌊x⌋ + 1 := ceil_eq_floor_add_one_of_fract_ne hf
      have hlt : x - (⌈x⌉ : ℚ) < 0 := by
        have h5 : x - (⌊x⌋ : ℚ) < 1 := by
          rw [Int.self_sub_floor]
          exact Int.fract_lt_one x
        rw [hc]
        push_cast
        linarith
      simp only [hlt, if_true]
      have hiter : ⌈x⌉ - 1 = ⌊x⌋ := by omega
      have herr : x - (⌈x⌉ : ℚ) + 1 = Int.fract x := by
        rw [hc, ← Int.self_sub_floor]
        push_cast
        ring
      rw [hiter, herr]

lemma advance_iter (it : FloatStepIterImpl) (n : ℤ) :
    (it.advance n).iter = it.iter + ⌊it._error + it.step * n⌋ := by
  rw [advance_def]

lemma advance_error (it : FloatStepIterImpl) (n : ℤ) :
    (it.advance n)._error = Int.fract (it._error + it.step * n) := by
  rw [advance_def]

lemma advance_step (it : FloatStepIterImpl) (n : ℤ) :
    (it.advance n).step = it.step := by
  rw [advance_def]

/-- Consecutive advances compose additively: `advance m` then `advance k`
is `advance (m + k)`, exactly, in the rational model. -/
lemma advance_advance (it : FloatStepIterImpl) (m k : ℤ) :
    (it.advance m).advance k = it.advance (m + k) := by
  rw [advance_def, advance_def, advance_def]
  simp only
  have hkey : Int.fract (it._error + it.step * m) + it.step * k
      = (it._error + it.step * m + it.step * k) - (⌊it._error + it.step * m⌋ : ℚ) := by
    rw [← Int.self_sub_floor]
    ring
  have hcast : it._error + it.step * ((m + k : ℤ) : ℚ)
      = it._error + it.step * m + it.step * k := by
    push_cast
    ring
  simp only [FloatStepIterImpl.mk.injEq]
  refine ⟨?_, trivial, ?_⟩
  · rw [hkey, Int.floor_sub_int, hcast]
    ring
  · rw [hkey, Int.fract_sub_int, hcast]

/-- With `_error` in `[0, 1)`, `advance 0` is the identity. -/
lemma advance_zero (it : FloatStepIterImpl) (h0 : 0 ≤ it._error)
    (h1 : it._error < 1) : it.advance 0 = it := by
  rw [advance_def]
  have hx : it._error + it.step * ((0 : ℤ) : ℚ) = it._error := by
    push_cast
    ring
  rw [hx, Int.floor_eq_zero_iff.mpr ⟨h0, h1⟩, Int.fract_eq_self.mpr ⟨h0, h1⟩]
  simp

/-- Iterating single-step advance agrees with a single multi-step advance,
for any starting state whose error is already in `[0, 1)`. -/
lemma iterate_advance_one (it : FloatStepIterImpl) (h0 : 0 ≤ it._error)
    (h1 : it._error < 1) :
    ∀ n : ℕ, (fun j => FloatStepIterImpl.advance j 1)^[n] it = it.advance (n : ℤ) := by
  intro n
  induction n with
  | zero => simpa using (advance_zero it h0 h1).symm
  | succ n ih =>
      rw [Function.iterate_succ_apply', ih]
      show (it.advance (n : ℤ)).advance 1 = it.advance ((n + 1 : ℕ) : ℤ)
      rw [advance_advance]
      norm_cast

/-- C2: for the fractional-step primitive, starting from any state with
error in `[0, 1)`, after every call to `advance n` — for any integer `n`
and any (rational-modelled) step, including negative steps — the error
field is again in `[0, 1)`. -/
theorem advance_error_mem_Ico (it : FloatStepIterImpl) (n : ℤ)
    (h0 : 0 ≤ it._error) (h1 : it._error < 1) :
    0 ≤ (it.advance n)._error ∧ (it.advance n)._error < 1 := by
  rw [advance_error]
  exact ⟨Int.fract_nonneg _, Int.fract_lt_one _⟩

theorem advance_error_mem_Ico_witness :
    (0 ≤ (float_step 0 (5/2))._error ∧ (float_step 0 (5/2))._error < 1)
    ∧ (0 ≤ ((float_step 0 (5/2)).advance 3)._error
        ∧ ((float_step 0 (5/2)).advance 3)._error < 1) :=
  ⟨⟨by norm_num [float_step], by norm_num [float_step]⟩,
    advance_error_mem_Ico (float_step 0 (5/2)) 3
      (by norm_num [float_step]) (by norm_num [float_step])⟩

/-- C3: for every wrapped position `p`, step `s ≠ 0` and count `n > 0`, a
single `advance n` from `float_step p s` yields the same final state —
position and error both — as `n` single-step advances from `float_step p s`;
in the exact rational model the agreement is exact. -/
theorem advance_n_eq_iterate_advance_one (p : ℤ) (s : ℚ) (n : ℕ)
    (hs : s ≠ 0) (hn : 0 < n) :
    (float_step p s).advance (n : ℤ)
      = (fun j => FloatStepIterImpl.advance j 1)^[n] (float_step p s) :=
  (iterate_advance_one (float_step p s) (by norm_num [float_step])
    (by norm_num [float_step]) n).symm

theorem advance_n_eq_iterate_advance_one_witness :
    ((5/2 : ℚ) ≠ 0) ∧ (0 < 4) ∧
    ((float_step 0 (5/2)).advance ((4 : ℕ) : ℤ)
      = (fun j => FloatStepIterImpl.advance j 1)^[4] (float_step 0 (5/2))) :=
  ⟨by norm_num, by norm_num,
    advance_n_eq_iterate_advance_one 0 (5/2) 4 (by norm_num) (by norm_num)⟩

/-- C4: for any two fractional-step primitives built with the same nonzero
step and equal initial state, and any integer `d`, after `a.advance d` the
call `a.difference b` returns exactly `d` in the rational model. -/
theorem difference_advance_roundTrip (p : ℤ) (s e : ℚ) (d : ℤ) (hs : s ≠ 0) :
    ((⟨p, s, e⟩ : FloatStepIterImpl).advance d).difference ⟨p, s, e⟩ = d := by
  rw [advance_def]
  unfold FloatStepIterImpl.difference
  simp only
  have hnum : ((p + ⌊e + s * (d : ℚ)⌋ - p : ℤ) : ℚ)
      + (Int.fract (e + s * (d : ℚ)) - e) = s * (d : ℚ) := by
    push_cast
    have h4 := Int.floor_add_fract (e + s * (d : ℚ))
    linarith
  rw [hnum, mul_div_cancel_left₀ _ hs]
  exact trunc_intCast d

theorem difference_advance_roundTrip_witness :
    ((5/2 : ℚ) ≠ 0) ∧
    (((⟨3, 5/2, 0⟩ : FloatStepIterImpl).advance 7).difference ⟨3, 5/2, 0⟩ = 7) :=
  ⟨by norm_num, difference_advance_roundTrip 3 (5/2) 0 7 (by norm_num)⟩

/-- C6: `equal` ignores `step`: any two primitives with identical `iter`
and identical `_error` but different `step` compare equal, and `equal`
returns `true` exactly when both `iter` and `_error` match. -/
theorem equal_iff_iter_and_error :
    (∀ a b : FloatStepIterImpl, a.iter = b.iter → a._error = b._error →
      a.step ≠ b.step → a.equal b = true)
    ∧ (∀ a b : FloatStepIterImpl,
        a.equal b = true ↔ (a.iter = b.iter ∧ a._error = b._error)) := by
  constructor
  · intro a b h1 h2 _
    simp [FloatStepIterImpl.equal, h1, h2]
  · intro a b
    simp [FloatStepIterImpl.equal]

theorem equal_iff_iter_and_error_witness :
    (⟨4, 1, 1/2⟩ : FloatStepIterImpl).equal ⟨4, 2, 1/2⟩ = true :=
  equal_iff_iter_and_error.1 ⟨4, 1, 1/2⟩ ⟨4, 2, 1/2⟩ rfl rfl (by norm_num)

/-- C5 counterexample: constructing a fractional-step primitive with
`step = 0` succeeds and stores `step = 0` — no validation, no domain
error — and `difference` is evaluated on it regardless, returning an
ordinary value instead of failing. -/
theorem float_step_accepts_zero_step :
    (float_step 0 0).step = 0
    ∧ (float_step 0 0).difference (float_step 0 0) = 0 := by
  refine ⟨rfl, ?_⟩
  norm_num [FloatStepIterImpl.difference, float_step, trunc]

/-- C5 amended: the code performs no validation of `step` anywhere: the
constructor stores the given position and step unchanged (even `step = 0`)
with `_error` initialized to `0`, and no error path exists. -/
theorem float_step_no_validation (p : ℤ) (s : ℚ) :
    (float_step p s).iter = p ∧ (float_step p s).step = s
    ∧ (float_step p s)._error = 0 :=
  ⟨rfl, rfl, rfl⟩

/-- C8: over integer positions with step `5/2` starting at position `0`
with error `0`, four successive single-step advances realize wrapped
positions `2, 5, 7, 10` with the error cycling through `1/2, 0, 1/2, 0`. -/
theorem float_step_scenario_two_point_five :
    (float_step 0 (5/2)).advance 1 = ⟨2, 5/2, 1/2⟩
    ∧ ((float_step 0 (5/2)).advance 1).advance 1 = ⟨5, 5/2, 0⟩
    ∧ (((float_step 0 (5/2)).advance 1).advance 1).advance 1 = ⟨7, 5/2, 1/2⟩
    ∧ ((((float_step 0 (5/2)).advance 1).advance 1).advance 1).advance 1
        = ⟨10, 5/2, 0⟩ := by
  have h1 : (float_step 0 (5/2)).advance 1 = ⟨2, 5/2, 1/2⟩ := by
    norm_num [FloatStepIterImpl.advance, modf, trunc, float_step]
  have h2 : (⟨2, 5/2, 1/2⟩ : FloatStepIterImpl).advance 1 = ⟨5, 5/2, 0⟩ := by
    norm_num [FloatStepIterImpl.advance, modf, trunc]
  have h3 : (⟨5, 5/2, 0⟩ : FloatStepIterImpl).advance 1 = ⟨7, 5/2, 1/2⟩ := by
    norm_num [FloatStepIterImpl.advance, modf, trunc]
  have h4 : (⟨7, 5/2, 1/2⟩ : FloatStepIterImpl).advance 1 = ⟨10, 5/2, 0⟩ := by
    norm_num [FloatStepIterImpl.advance, modf, trunc]
  exact ⟨h1, by rw [h1, h2], by rw [h1, h2, h3], by rw [h1, h2, h3, h4]⟩

/-- C1, evaluated at a concrete input: on a fractional-step primitive at
position 0 with step 1, the adaptor's `operator++()` (pre-increment form)
returns the NOT-yet-advanced old copy while `operator++(int)`
(post-increment form) returns the advanced iterator, and the
post-decrement form likewise returns the advanced (decremented) iterator —
exactly the opposite of the claimed return values (each form does call
`advance` once, which is what the second projections record). -/
theorem increment_return_values_swapped :
    (op_preInc fsAdv (float_step 0 1)).1 = float_step 0 1
    ∧ (op_preInc fsAdv (float_step 0 1)).2 = float_step 1 1
    ∧ (op_postInc fsAdv (float_step 0 1)).1 = float_step 1 1
    ∧ (op_postDec fsAdv (float_step 5 1)).1 = float_step 4 1
    ∧ float_step 1 1 ≠ float_step 0 1
    ∧ float_step 4 1 ≠ float_step 5 1 := by
  have hadv : fsAdv 1 (float_step 0 1) = float_step 1 1 := by
    norm_num [fsAdv, FloatStepIterImpl.advance, modf, trunc, float_step]
  have hdec : fsAdv (-1) (float_step 5 1) = float_step 4 1 := by
    have h : ⌈(-1 : ℚ)⌉ = -1 := by
      rw [show ((-1 : ℚ)) = ((-1 : ℤ) : ℚ) by norm_num]
      exact Int.ceil_intCast _
    norm_num [fsAdv, FloatStepIterImpl.advance, modf, trunc, float_step, h]
  refine ⟨rfl, hadv, ?_, ?_, ?_, ?_⟩
  · show fsAdv 1 (float_step 0 1) = float_step 1 1
    exact hadv
  · show fsAdv (-1) (float_step 5 1) = float_step 4 1
    exact hdec
  · simp [float_step]
  · simp [float_step]

/-- C9: the adaptor's `operator+` and `operator-` (const members) return
a fresh adaptor whose primitive is a copy of the receiver's advanced by
`n` (resp. `-n`) while the receiver's state is returned unchanged, and
the fractional-step copy constructor reproduces every field, so a copy is
an independent equal value. -/
theorem adaptor_plus_value_semantics :
    (∀ (σ : Type) (adv : ℤ → σ → σ) (a : σ) (n : ℤ),
      (op_add adv a n).1 = adv n a ∧ (op_add adv a n).2 = a
      ∧ (op_sub adv a n).1 = adv (-n) a ∧ (op_sub adv a n).2 = a)
    ∧ (∀ it : FloatStepIterImpl, it.copy = it) := by
  constructor
  · intro σ adv a n
    exact ⟨rfl, rfl, rfl, rfl⟩
  · intro it
    rfl

/-!
Facts about the generating primitive: the loop in `advance` applies the
producer's state transition once per iteration, and `val` holds the
result of the last invocation.
-/

lemma advance_generator_iterate {γ V : Type} (produce : γ → V × γ)
    (it : GeneratingIterImpl γ V) :
    ∀ k : ℕ, ((invokeStep produce)^[k] it).generator
      = (stateTrans produce)^[k] it.generator := by
  intro k
  induction k with
  | zero => rfl
  | succ k ih =>
      rw [Function.iterate_succ_apply', Function.iterate_succ_apply']
      show (invokeStep produce ((invokeStep produce)^[k] it)).generator
        = stateTrans produce ((stateTrans produce)^[k] it.generator)
      rw [← ih]
      rfl

lemma advance_val_last {γ V : Type} (produce : γ → V × γ)
    (it : GeneratingIterImpl γ V) (k : ℕ) (hk : 1 ≤ k) :
    ((invokeStep produce)^[k] it).val
      = (produce ((stateTrans produce)^[k - 1] it.generator)).1 := by
  obtain ⟨j, rfl⟩ : ∃ j, k = j + 1 := ⟨k - 1, by omega⟩
  rw [Function.iterate_succ_apply']
  show (invokeStep produce ((invokeStep produce)^[j] it)).val
    = (produce ((stateTrans produce)^[j + 1 - 1] it.generator)).1
  rw [show j + 1 - 1 = j by omega, ← advance_generator_iterate produce it j]
  rfl

/-- C7: for every `n ≥ 1`, `advance n` on the generating primitive applies
the producer exactly `n` times in sequence (its state is the `n`-fold
state transition of the initial state) and retains as `val` the result of
the last, `n`-th, invocation; `dereference` afterwards returns exactly
that stored value and, being a pure read of `val`, re-invokes nothing. -/
theorem generating_advance_producer_calls {γ V : Type} (produce : γ → V × γ)
    (it : GeneratingIterImpl γ V) (n : ℤ) (hn : 1 ≤ n) :
    (GeneratingIterImpl.advance produce n it).generator
      = (stateTrans produce)^[n.toNat] it.generator
    ∧ (GeneratingIterImpl.advance produce n it).val
      = (produce ((stateTrans produce)^[n.toNat - 1] it.generator)).1
    ∧ (GeneratingIterImpl.advance produce n it).dereference
      = (GeneratingIterImpl.advance produce n it).val := by
  have h1 : 1 ≤ n.toNat := by omega
  exact ⟨advance_generator_iterate produce it n.toNat,
    advance_val_last produce it n.toNat h1, rfl⟩

theorem generating_advance_producer_calls_witness :
    (1 ≤ (3 : ℤ))
    ∧ ((GeneratingIterImpl.advance (countingProduce id) 3
          (⟨0, 0⟩ : GeneratingIterImpl ℕ ℕ)).generator
        = (stateTrans (countingProduce id))^[(3 : ℤ).toNat]
            (⟨0, 0⟩ : GeneratingIterImpl ℕ ℕ).generator
      ∧ (GeneratingIterImpl.advance (countingProduce id) 3
          (⟨0, 0⟩ : GeneratingIterImpl ℕ ℕ)).val
        = (countingProduce id ((stateTrans (countingProduce id))^[(3 : ℤ).toNat - 1]
            (⟨0, 0⟩ : GeneratingIterImpl ℕ ℕ).generator)).1
      ∧ (GeneratingIterImpl.advance (countingProduce id) 3
          (⟨0, 0⟩ : GeneratingIterImpl ℕ ℕ)).dereference
        = (GeneratingIterImpl.advance (countingProduce id) 3
          (⟨0, 0⟩ : GeneratingIterImpl ℕ ℕ)).val) :=
  ⟨by norm_num,
    generating_advance_producer_calls (countingProduce id) ⟨0, 0⟩ 3 (by norm_num)⟩

/-- C10: for every `n ≤ 0`, `advance n` on the generating primitive is a
total no-op: the `for` loop body never runs, so both the stored value and
the producer state are unchanged. -/
theorem generating_advance_nonpos_noop {γ V : Type} (produce : γ → V × γ)
    (it : GeneratingIterImpl γ V) (n : ℤ) (hn : n ≤ 0) :
    GeneratingIterImpl.advance produce n it = it := by
  unfold GeneratingIterImpl.advance
  rw [Int.toNat_of_nonpos hn]
  rfl

theorem generating_advance_nonpos_noop_witness :
    ((-2 : ℤ) ≤ 0)
    ∧ (GeneratingIterImpl.advance (countingProduce id) (-2)
        (⟨0, 0⟩ : GeneratingIterImpl ℕ ℕ) = ⟨0, 0⟩) :=
  ⟨by norm_num,
    generating_advance_nonpos_noop (countingProduce id) ⟨0, 0⟩ (-2) (by norm_num)⟩

end Top1
